import Mathlib

/-!
Verification of the native-function dispatch boundary of the Move VM
(`language/move-vm/runtime/src/native_functions.rs`): the native-function
registry (`NativeFunctions::new` / `resolve`), the registration-table builder
(`make_table` / `make_table_from_iter`) and the per-call execution context
(`NativeContext`: `save_event`, `events`, `type_to_type_tag`,
`type_to_type_layout`).

The embedding is shallow: the Rust mutable loops become structural recursion
with explicit state, `std::collections::HashMap` becomes an association map
with the standard insert/lookup semantics, and `PartialVMResult` becomes
`Except`.  Collaborator interfaces that the source consumes but whose
implementations live outside this slice (the `DataStore` trait, the
`Resolver`/`Loader` type queries, `Identifier` validation and the
`StatusCode -> StatusType` classification of `PartialVMError`) are modelled
from the specification, each marked as such in its doc comment.
-/

namespace Move

/-! ## Error model -/

/-- Modelled from the spec: classification of a VM status code.  The spec's
error taxonomy distinguishes internal invariant violations (always fatal)
from every other classification; the concrete enumeration mirrors
`move_core_types::vm_status::StatusType`, which is not part of this slice. -/
inductive StatusType where
  | Validation
  | Verification
  | InvariantViolation
  | BinaryError
  | Execution
  | Unknown
  deriving DecidableEq, Repr

/-- Modelled from the spec: a major status code together with its
classification.  The numeric code is opaque to this slice; only the
classification (`status_type`) and code identity are observed. -/
structure StatusCode where
  code : Nat
  status_type : StatusType
  deriving DecidableEq, Repr

/-- The status code returned by registry construction on a duplicate
(address, module, function) triple. -/
def StatusCode.DUPLICATE_NATIVE_FUNCTION : StatusCode :=
  ⟨1049, StatusType.Verification⟩

/-- Modelled from the spec: a VM-internal error value; the source observes it
only through `major_status().status_type()`. -/
structure PVMError where
  major_status : StatusCode
  deriving DecidableEq, Repr

/-- `PartialVMError::new`. -/
def PVMError.new (code : StatusCode) : PVMError := ⟨code⟩

/-- `PartialVMResult<T>`. -/
abbrev PVMResult (α : Type) := Except PVMError α

/-! ## Identifiers and addresses -/

/-- `AccountAddress`: a fixed-size byte array, opaque here; only its identity
as a map key matters to this slice. -/
abbrev AccountAddress := Nat

/-- A validated identifier (`move_core_types::identifier::Identifier`).  The
wrapped string is the one `into_string` returns. -/
structure Identifier where
  toString : String
  deriving DecidableEq, Repr

/-- `Identifier::into_string`. -/
def Identifier.into_string (i : Identifier) : String := i.toString

/-- Modelled from the spec: `Identifier::new` validates that the given text is
a syntactically legal identifier and fails otherwise.  The legality predicate
itself lives outside this slice, so the construction is parameterised by an
arbitrary decidable legality predicate `valid`. -/
def Identifier.new (valid : String → Bool) (s : String) : Option Identifier :=
  if valid s then some ⟨s⟩ else none

/-! ## Registration table builder -/

/-- `NativeFunctionTable`: an ordered registration list.  The native
implementation type is kept abstract (`ν`); the source never inspects it. -/
abbrev NativeFunctionTable (ν : Type) :=
  List (AccountAddress × Identifier × Identifier × ν)

/-- `make_table_from_iter`: validates each module / function name and builds
the registration table.  The Rust source calls `Identifier::new(..).unwrap()`
inside the mapping closure, so a single invalid name aborts the whole
construction; the panic is modelled as `Option.none`, under which no table
value (partial or otherwise) exists. -/
def make_table_from_iter {ν : Type} (valid : String → Bool)
    (addr : AccountAddress) : List (String × String × ν) →
    Option (NativeFunctionTable ν)
  | [] => some []
  | e :: rest => do
    let module_name ← Identifier.new valid e.1
    let func_name ← Identifier.new valid e.2.1
    let tail ← make_table_from_iter valid addr rest
    pure ((addr, module_name, func_name, e.2.2) :: tail)

/-- `make_table`: delegates to `make_table_from_iter`. -/
def make_table {ν : Type} (valid : String → Bool) (addr : AccountAddress)
    (elems : List (String × String × ν)) : Option (NativeFunctionTable ν) :=
  make_table_from_iter valid addr elems

/-! ## Association maps (the embedding of `std::collections::HashMap`)

Only lookup and insert are used by the source.  Hash-bucket layout is
unobservable through those operations, so the map is embedded as an
association list with first-match lookup and replace-in-place insert. -/

/-- The embedding of `HashMap`. -/
abbrev HMap (κ α : Type) := List (κ × α)

/-- `HashMap::get`. -/
def HMap.get? {κ α : Type} [DecidableEq κ] : HMap κ α → κ → Option α
  | [], _ => none
  | (k', v) :: rest, k => if k = k' then some v else HMap.get? rest k

/-- `HashMap::insert`, restricted to its resulting map (the returned previous
value is recovered through `HMap.get?` at the call sites that need it). -/
def HMap.insert {κ α : Type} [DecidableEq κ] : HMap κ α → κ → α → HMap κ α
  | [], k, v => [(k, v)]
  | (k', v') :: rest, k, v =>
      if k = k' then (k, v) :: rest else (k', v') :: HMap.insert rest k v

/-- `NativeFunctions`: the frozen three-level mapping
address → module name → function name → implementation. -/
structure NativeFunctions (ν : Type) where
  map : HMap AccountAddress (HMap String (HMap String ν))

/-- `NativeFunctions::resolve`: pure nested lookup; `None` on any miss. -/
def NativeFunctions.resolve {ν : Type} (self : NativeFunctions ν)
    (addr : AccountAddress) (module_name func_name : String) : Option ν := do
  let modules ← self.map.get? addr
  let funcs ← modules.get? module_name
  funcs.get? func_name

/-- The loop body state of `NativeFunctions::new`: processes the remaining
registration entries against the map built so far.  At each entry the source
materialises the per-address and per-module sub-maps (`entry().or_insert_with`,
read here as lookup-with-default) and fails on a previously present function
name. -/
def NativeFunctions.newGo {ν : Type} :
    List (AccountAddress × Identifier × Identifier × ν) →
    HMap AccountAddress (HMap String (HMap String ν)) →
    PVMResult (NativeFunctions ν)
  | [], map => Except.ok ⟨map⟩
  | (addr, module_name, func_name, func) :: rest, map =>
      let modules := (map.get? addr).getD []
      let funcs := (modules.get? module_name.into_string).getD []
      if (funcs.get? func_name.into_string).isSome then
        Except.error (PVMError.new StatusCode.DUPLICATE_NATIVE_FUNCTION)
      else
        NativeFunctions.newGo rest
          (map.insert addr (modules.insert module_name.into_string
            (funcs.insert func_name.into_string func)))

/-- `NativeFunctions::new`: folds the registration table into the empty map,
failing on the first duplicate (address, module, function) triple. -/
def NativeFunctions.new {ν : Type}
    (natives : List (AccountAddress × Identifier × Identifier × ν)) :
    PVMResult (NativeFunctions ν) :=
  NativeFunctions.newGo natives []

/-- The (address, module name, function name) key triple of a registration
entry, with identifiers read off as the strings the registry stores. -/
def tripleOf {ν : Type} (e : AccountAddress × Identifier × Identifier × ν) :
    AccountAddress × String × String :=
  (e.1, e.2.1.into_string, e.2.2.1.into_string)

/-- First-match lookup of a key triple in a registration table: the reference
behaviour `resolve` is compared against. -/
def tableLookup {ν : Type} (table : NativeFunctionTable ν)
    (k : AccountAddress × String × String) : Option ν :=
  (table.find? fun e => decide (tripleOf e = k)).map fun e => e.2.2.2

/-- Nested lookup through a raw three-level map (the registry's `resolve`
stated on intermediate construction states). -/
def resolveMap {ν : Type}
    (map : HMap AccountAddress (HMap String (HMap String ν)))
    (k : AccountAddress × String × String) : Option ν := do
  let modules ← map.get? k.1
  let funcs ← modules.get? k.2.1
  funcs.get? k.2.2

/-- Runtime type descriptor (`Type`), opaque to this slice. -/
abbrev Ty := Nat

/-- Runtime value (`Value`), opaque to this slice. -/
abbrev Value := Nat

/-- Serialization layout (`MoveTypeLayout`), opaque to this slice. -/
abbrev MoveTypeLayout := Nat

/-- Serializable type identity (`TypeTag`), opaque to this slice. -/
abbrev TypeTag := Nat

/-- Event identifier bytes (`Vec<u8>`). -/
abbrev Guid := List Nat

/-- An event-log record: (guid, sequence number, type, layout, value),
exactly the tuple `DataStore::events` exposes. -/
abbrev Event := Guid × Nat × Ty × MoveTypeLayout × Value

/-- Modelled from the spec: the data store seam (`move_vm_types`'s `DataStore`
trait object, whose implementation is outside this slice).  `emit_decision`
is the store's policy: on acceptance it yields the serialized layout recorded
with the event; on rejection it yields the store's error.  `event_log` is the
append-only log behind `events`. -/
structure DataStore where
  emit_decision : Guid → Nat → Ty → Value → Except PVMError MoveTypeLayout
  event_log : List Event

/-- Modelled from the spec: `DataStore::emit_event` — on acceptance the event
is appended to the log; on rejection the store is unchanged and the error is
returned. -/
def DataStore.emit_event (s : DataStore) (guid : Guid) (seq_num : Nat)
    (ty : Ty) (val : Value) : Except PVMError DataStore :=
  match s.emit_decision guid seq_num ty val with
  | Except.ok layout =>
      Except.ok { s with event_log := s.event_log ++ [(guid, seq_num, ty, layout, val)] }
  | Except.error e => Except.error e

/-- `DataStore::events`: the recorded events in append order. -/
def DataStore.events (s : DataStore) : List Event := s.event_log

/-- Modelled from the spec: the loader handle's type-identity query
(`Loader::type_to_type_tag`), outside this slice. -/
structure Loader where
  type_to_type_tag : Ty → Except PVMError TypeTag

/-- Modelled from the spec: the resolver seam — a loader handle plus the
type-layout query (`Resolver::type_to_type_layout`), outside this slice. -/
structure Resolver where
  loader : Loader
  type_to_type_layout : Ty → Except PVMError MoveTypeLayout

/-- `NativeContext`: the per-call sandbox.  The interpreter, gas status and
extensions fields take no part in the verified operations and are elided. -/
structure NativeContext where
  data_store : DataStore
  resolver : Resolver

/-- `NativeContext::save_event`: forwards to the store's `emit_event`;
acceptance returns `true`, a rejection classified as an invariant violation
propagates the error unmodified, and any other rejection returns `false`.
The second component is the context after the call (the mutable borrow). -/
def NativeContext.save_event (ctx : NativeContext) (guid : Guid)
    (seq_num : Nat) (ty : Ty) (val : Value) : PVMResult Bool × NativeContext :=
  match ctx.data_store.emit_event guid seq_num ty val with
  | Except.ok store => (Except.ok true, { ctx with data_store := store })
  | Except.error e =>
      if e.major_status.status_type = StatusType.InvariantViolation then
        (Except.error e, ctx)
      else
        (Except.ok false, ctx)

/-- `NativeContext::events`. -/
def NativeContext.events (ctx : NativeContext) : List Event :=
  ctx.data_store.events

/-- `NativeContext::type_to_type_tag`: direct delegation to the loader. -/
def NativeContext.type_to_type_tag (ctx : NativeContext) (ty : Ty) :
    PVMResult TypeTag :=
  ctx.resolver.loader.type_to_type_tag ty

/-- `NativeContext::type_to_type_layout`: a resolved layout is wrapped as
present, an invariant-violation failure propagates, and any other failure
degrades to absence. -/
def NativeContext.type_to_type_layout (ctx : NativeContext) (ty : Ty) :
    PVMResult (Option MoveTypeLayout) :=
  match ctx.resolver.type_to_type_layout ty with
  | Except.ok ty_layout => Except.ok (some ty_layout)
  | Except.error e =>
      if e.major_status.status_type = StatusType.InvariantViolation then
        Except.error e
      else
        Except.ok none

/-- Replays a list of `save_event` calls in order, threading the context and
collecting each call's result. -/
def save_event_seq : NativeContext → List (Guid × Nat × Ty × Value) →
    List (PVMResult Bool) × NativeContext
  | ctx, [] => ([], ctx)
  | ctx, (guid, seq_num, ty, val) :: rest =>
      let step := ctx.save_event guid seq_num ty val
      let tail := save_event_seq step.2 rest
      (step.1 :: tail.1, tail.2)

/-! ## Concrete fixtures

Small closed inputs the claim theorems are instantiated on.  Implementations
are represented by `Nat` identity tokens (the source treats the function
pointer as an opaque value). -/

/-- A duplicate-free registration table: two functions in one module, and the
same function name again under a different address. -/
def tblDistinct : NativeFunctionTable Nat :=
  [(1, ⟨"m"⟩, ⟨"f"⟩, 10), (1, ⟨"m"⟩, ⟨"g"⟩, 11), (2, ⟨"m"⟩, ⟨"f"⟩, 12)]

/-- A table repeating the triple (1, m, f) with different implementations. -/
def tblDupDiff : NativeFunctionTable Nat :=
  [(1, ⟨"m"⟩, ⟨"f"⟩, 5), (1, ⟨"m"⟩, ⟨"f"⟩, 6)]

/-- A table repeating the triple (3, mod, h) with the identical
implementation. -/
def tblDupSame : NativeFunctionTable Nat :=
  [(3, ⟨"mod"⟩, ⟨"h"⟩, 9), (3, ⟨"mod"⟩, ⟨"h"⟩, 9)]

/-- A table whose entries each differ in some component of the triple while
all carrying the same implementation. -/
def tblNearMiss : NativeFunctionTable Nat :=
  [(3, ⟨"mod"⟩, ⟨"a"⟩, 9), (3, ⟨"mod"⟩, ⟨"b"⟩, 9), (4, ⟨"mod"⟩, ⟨"a"⟩, 9)]

/-- A sample identifier-legality predicate: nonempty text. -/
def validSample (s : String) : Bool := !s.isEmpty

/-- An error classified as an internal invariant violation. -/
def errInvariant : PVMError := ⟨⟨2000, StatusType.InvariantViolation⟩⟩

/-- An error with an ordinary (non-invariant-violation) classification. -/
def errExecution : PVMError := ⟨⟨4000, StatusType.Execution⟩⟩

/-- A data store that accepts guid [1] (layout 0), rejects guid [2] with an
invariant violation and rejects anything else with an execution error. -/
def storeMixed : DataStore :=
  ⟨fun guid _ _ _ =>
    if guid = [1] then Except.ok 0
    else if guid = [2] then Except.error errInvariant
    else Except.error errExecution, []⟩

/-- A data store that accepts every event with layout 0. -/
def storeAccept : DataStore := ⟨fun _ _ _ _ => Except.ok 0, []⟩

/-- A resolver whose loader yields tag 0 for type 0 and fails otherwise, and
which yields layout 7 for type 0, an invariant violation for type 1 and an
ordinary failure otherwise. -/
def resolverMixed : Resolver :=
  ⟨⟨fun ty => if ty = 0 then Except.ok 0 else Except.error errInvariant⟩,
   fun ty =>
    if ty = 0 then Except.ok 7
    else if ty = 1 then Except.error errInvariant
    else Except.error errExecution⟩

/-- Context over the mixed store and resolver. -/
def ctxMixed : NativeContext := ⟨storeMixed, resolverMixed⟩

/-- Context over the always-accepting store. -/
def ctxAccept : NativeContext := ⟨storeAccept, resolverMixed⟩

/-- Three save_event calls with guids [1], [2], [3] and differing payloads. -/
def callsThree : List (Guid × Nat × Ty × Value) :=
  [([1], 0, 0, 0), ([2], 1, 2, 3), ([3], 4, 5, 6)]

/-! ## Lemmas -/

theorem HMap.get?_insert {κ α : Type} [DecidableEq κ] (m : HMap κ α)
    (k k' : κ) (v : α) :
    (m.insert k v).get? k' = if k' = k then some v else m.get? k' := by
  induction m with
  | nil =>
    simp only [HMap.insert, HMap.get?]
  | cons hd tl ih =>
    obtain ⟨k₀, v₀⟩ := hd
    by_cases hk : k = k₀
    · subst hk
      by_cases hk' : k' = k <;> simp [HMap.insert, HMap.get?, hk']
    · by_cases hk' : k' = k₀
      · subst hk'
        simp [HMap.insert, HMap.get?, hk, Ne.symm hk]
      · simp [HMap.insert, HMap.get?, hk, hk', ih]

/-! ## Native function registry -/

theorem tableLookup_cons {ν : Type}
    (hd : AccountAddress × Identifier × Identifier × ν)
    (rest : NativeFunctionTable ν) (k : AccountAddress × String × String) :
    tableLookup (hd :: rest) k =
      if tripleOf hd = k then some hd.2.2.2 else tableLookup rest k := by
  simp only [tableLookup, List.find?]
  by_cases h : tripleOf hd = k
  · rw [decide_eq_true h]
    simp [h]
  · rw [decide_eq_false h]
    simp [h]

theorem resolve_eq_resolveMap {ν : Type} (r : NativeFunctions ν)
    (addr : AccountAddress) (module_name func_name : String) :
    r.resolve addr module_name func_name =
      resolveMap r.map (addr, module_name, func_name) := rfl

theorem resolveMap_eq_chain {ν : Type}
    (map : HMap AccountAddress (HMap String (HMap String ν)))
    (k : AccountAddress × String × String) :
    resolveMap map k =
      ((((map.get? k.1).getD []).get? k.2.1).getD []).get? k.2.2 := by
  unfold resolveMap
  cases hA : map.get? k.1 with
  | none => simp [hA, HMap.get?]
  | some modules =>
    cases hM : modules.get? k.2.1 with
    | none => simp [hA, hM, HMap.get?]
    | some funcs => simp [hA, hM]

/-- Inserting one (address, module, function) ↦ implementation binding,
through the three nested maps exactly as one loop iteration of
`NativeFunctions::new` does, updates `resolveMap` pointwise at that triple
and nowhere else. -/
theorem resolveMap_insertTriple {ν : Type}
    (map : HMap AccountAddress (HMap String (HMap String ν)))
    (a : AccountAddress) (m f : String) (fn : ν)
    (k : AccountAddress × String × String) :
    resolveMap
      (map.insert a ((((map.get? a).getD []).insert m
        ((((((map.get? a).getD []).get? m).getD [])).insert f fn)))) k =
      if k = (a, m, f) then some fn else resolveMap map k := by
  obtain ⟨ka, km, kf⟩ := k
  rw [resolveMap_eq_chain, resolveMap_eq_chain]
  simp only [HMap.get?_insert]
  by_cases hA : ka = a
  · subst hA
    rw [if_pos rfl]
    simp only [Option.getD_some, HMap.get?_insert]
    by_cases hM : km = m
    · subst hM
      rw [if_pos rfl]
      simp only [Option.getD_some, HMap.get?_insert]
      by_cases hF : kf = f
      · subst hF
        rw [if_pos rfl, if_pos rfl]
      · rw [if_neg hF, if_neg (by simp [hF])]
    · rw [if_neg hM, if_neg (by simp [hM])]
  · rw [if_neg hA, if_neg (by simp [hA])]

/-- On success, the registry built from remaining entries `l` over an
intermediate map resolves each triple to its binding in the intermediate map
if present, and otherwise to its first binding in `l`. -/
theorem newGo_ok_resolveMap {ν : Type}
    (l : List (AccountAddress × Identifier × Identifier × ν))
    (map : HMap AccountAddress (HMap String (HMap String ν)))
    (r : NativeFunctions ν) (h : NativeFunctions.newGo l map = Except.ok r)
    (k : AccountAddress × String × String) :
    resolveMap r.map k =
      match resolveMap map k with
      | some fn => some fn
      | none => tableLookup l k := by
  induction l generalizing map with
  | nil =>
    simp only [NativeFunctions.newGo, Except.ok.injEq] at h
    subst h
    cases hm : resolveMap map k <;> simp [tableLookup, hm]
  | cons e rest ih =>
    obtain ⟨a, mi, fi, fn⟩ := e
    simp only [NativeFunctions.newGo] at h
    by_cases hdup :
        ((((((map.get? a).getD []).get? mi.into_string).getD
          [])).get? fi.into_string).isSome
    · simp [hdup] at h
    · rw [if_neg hdup] at h
      have hfresh : resolveMap map (a, mi.into_string, fi.into_string) = none := by
        rw [resolveMap_eq_chain]
        simpa using hdup
      have step := ih _ h
      rw [step, resolveMap_insertTriple]
      have hcons : tableLookup ((a, mi, fi, fn) :: rest) k =
          if tripleOf (ν := ν) (a, mi, fi, fn) = k then some fn
          else tableLookup rest k := by
        simp only [tableLookup, List.find?]
        by_cases ht : tripleOf (ν := ν) (a, mi, fi, fn) = k
        · simp [ht]
        · simp [ht]
      by_cases hk : k = (a, mi.into_string, fi.into_string)
      · subst hk
        rw [hfresh, hcons, if_pos rfl]
        simp [tripleOf]
      · rw [if_neg hk, hcons, if_neg (by simpa [tripleOf, eq_comm] using hk)]

/-- On success, the triples of the processed entries are pairwise distinct and
each was absent from the intermediate map. -/
theorem newGo_ok_nodup {ν : Type}
    (l : List (AccountAddress × Identifier × Identifier × ν))
    (map : HMap AccountAddress (HMap String (HMap String ν)))
    (r : NativeFunctions ν) (h : NativeFunctions.newGo l map = Except.ok r) :
    (l.map tripleOf).Nodup ∧ ∀ e ∈ l, resolveMap map (tripleOf e) = none := by
  induction l generalizing map with
  | nil => simp
  | cons e rest ih =>
    obtain ⟨a, mi, fi, fn⟩ := e
    simp only [NativeFunctions.newGo] at h
    by_cases hdup :
        ((((((map.get? a).getD []).get? mi.into_string).getD
          [])).get? fi.into_string).isSome
    · simp [hdup] at h
    · rw [if_neg hdup] at h
      have hfresh : resolveMap map (a, mi.into_string, fi.into_string) = none := by
        rw [resolveMap_eq_chain]
        simpa using hdup
      obtain ⟨hnd, hfr⟩ := ih _ h
      have hstep : ∀ e' ∈ rest,
          tripleOf e' ≠ tripleOf (ν := ν) (a, mi, fi, fn) ∧
          resolveMap map (tripleOf e') = none := by
        intro e' he'
        have := hfr e' he'
        rw [resolveMap_insertTriple] at this
        by_cases hk : tripleOf e' = (a, mi.into_string, fi.into_string)
        · rw [if_pos hk] at this
          exact absurd this (by simp)
        · rw [if_neg hk] at this
          exact ⟨by simpa [tripleOf] using hk, this⟩
      refine ⟨List.nodup_cons.mpr ⟨?_, hnd⟩, ?_⟩
      · intro hmem
        obtain ⟨e', he', heq⟩ := List.mem_map.mp hmem
        exact (hstep e' he').1 heq
      · intro e' he'
        rcases List.mem_cons.mp he' with h1 | h2
        · subst h1
          simpa [tripleOf] using hfresh
        · exact (hstep e' h2).2

/-- The only error registry construction ever returns is the
duplicate-native-function error. -/
theorem newGo_error_eq {ν : Type}
    (l : List (AccountAddress × Identifier × Identifier × ν))
    (map : HMap AccountAddress (HMap String (HMap String ν)))
    (e : PVMError) (h : NativeFunctions.newGo l map = Except.error e) :
    e = PVMError.new StatusCode.DUPLICATE_NATIVE_FUNCTION := by
  induction l generalizing map with
  | nil => simp [NativeFunctions.newGo] at h
  | cons hd rest ih =>
    obtain ⟨a, mi, fi, fn⟩ := hd
    simp only [NativeFunctions.newGo] at h
    by_cases hdup :
        ((((((map.get? a).getD []).get? mi.into_string).getD
          [])).get? fi.into_string).isSome
    · rw [if_pos hdup] at h
      exact (Except.error.injEq _ _ ▸ h.symm).symm ▸ rfl
    · rw [if_neg hdup] at h
      exact ih _ h

/-- On distinct triples, registry construction succeeds. -/
theorem newGo_ok_of_nodup {ν : Type}
    (l : List (AccountAddress × Identifier × Identifier × ν))
    (map : HMap AccountAddress (HMap String (HMap String ν)))
    (hnd : (l.map tripleOf).Nodup)
    (hfr : ∀ e ∈ l, resolveMap map (tripleOf e) = none) :
    ∃ r, NativeFunctions.newGo l map = Except.ok r := by
  revert hnd hfr
  induction l generalizing map with
  | nil =>
    intro hnd hfr
    exact ⟨⟨map⟩, rfl⟩
  | cons e rest ih =>
    intro hnd hfr
    obtain ⟨a, mi, fi, fn⟩ := e
    have hfresh : resolveMap map (a, mi.into_string, fi.into_string) = none := by
      simpa [tripleOf] using hfr _ (List.mem_cons_self _ _)
    have hdup :
        ¬ ((((((map.get? a).getD []).get? mi.into_string).getD
          [])).get? fi.into_string).isSome := by
      rw [resolveMap_eq_chain] at hfresh
      simp [hfresh]
    rw [List.map_cons] at hnd
    have hnd' := List.nodup_cons.mp hnd
    have hfr' : ∀ e' ∈ rest,
        resolveMap
          (map.insert a ((((map.get? a).getD []).insert mi.into_string
            ((((((map.get? a).getD []).get? mi.into_string).getD
              [])).insert fi.into_string fn)))) (tripleOf e') = none := by
      intro e' he'
      rw [resolveMap_insertTriple]
      have hne : tripleOf e' ≠ tripleOf (ν := ν) (a, mi, fi, fn) := by
        intro hc
        refine hnd'.1 ?_
        rw [← hc]
        exact List.mem_map_of_mem tripleOf he'
      rw [if_neg (by simpa [tripleOf] using hne),
        hfr e' (List.mem_cons_of_mem _ he')]
    obtain ⟨r, hr⟩ := ih _ hnd'.2 hfr'
    exact ⟨r, by simp only [NativeFunctions.newGo, if_neg hdup]; exact hr⟩

/-- With distinct triples, first-match table lookup at a member's triple
returns that member's implementation. -/
theorem tableLookup_mem {ν : Type} (table : NativeFunctionTable ν)
    (hnd : (table.map tripleOf).Nodup)
    (e : AccountAddress × Identifier × Identifier × ν) (he : e ∈ table) :
    tableLookup table (tripleOf e) = some e.2.2.2 := by
  revert hnd he
  induction table with
  | nil =>
    intro hnd he
    simp at he
  | cons hd rest ih =>
    intro hnd he
    rw [List.map_cons] at hnd
    rw [tableLookup_cons]
    rcases List.mem_cons.mp he with h1 | h2
    · subst h1
      rw [if_pos rfl]
    · have hne : tripleOf hd ≠ tripleOf e := by
        intro hc
        refine (List.nodup_cons.mp hnd).1 ?_
        rw [hc]
        exact List.mem_map_of_mem tripleOf h2
      rw [if_neg hne]
      exact ih (List.nodup_cons.mp hnd).2 h2

/-- Table lookup at a triple registered by no entry misses. -/
theorem tableLookup_not_mem {ν : Type} (table : NativeFunctionTable ν)
    (k : AccountAddress × String × String)
    (h : ∀ e ∈ table, tripleOf e ≠ k) :
    tableLookup table k = none := by
  revert h
  induction table with
  | nil =>
    intro h
    rfl
  | cons hd rest ih =>
    intro h
    rw [tableLookup_cons, if_neg (h hd (List.mem_cons_self _ _))]
    exact ih fun e he => h e (List.mem_cons_of_mem _ he)

/-! ## Native execution context

The context borrows the interpreter, data store, gas schedule, resolver and
extensions.  Of these, the claims under verification exercise the data store
and the resolver; the Rust mutable borrow of the data store is embedded as
explicit state passing (`save_event` returns the context after the call). -/

theorem save_event_accept {ctx : NativeContext} {guid : Guid} {seq_num : Nat}
    {ty : Ty} {val : Value} {layout : MoveTypeLayout}
    (h : ctx.data_store.emit_decision guid seq_num ty val = Except.ok layout) :
    ctx.save_event guid seq_num ty val =
      (Except.ok true,
        { ctx with data_store :=
            { ctx.data_store with event_log :=
                ctx.data_store.event_log ++ [(guid, seq_num, ty, layout, val)] } }) := by
  simp [NativeContext.save_event, DataStore.emit_event, h]

theorem save_event_reject {ctx : NativeContext} {guid : Guid} {seq_num : Nat}
    {ty : Ty} {val : Value} {e : PVMError}
    (h : ctx.data_store.emit_decision guid seq_num ty val = Except.error e) :
    ctx.save_event guid seq_num ty val =
      (if e.major_status.status_type = StatusType.InvariantViolation then
        (Except.error e, ctx)
      else
        (Except.ok false, ctx)) := by
  simp only [NativeContext.save_event, DataStore.emit_event, h]

theorem make_table_from_iter_cons {ν : Type} (valid : String → Bool)
    (addr : AccountAddress) (m f : String) (fn : ν)
    (rest : List (String × String × ν)) :
    make_table_from_iter valid addr ((m, f, fn) :: rest) =
      if valid m then
        if valid f then
          (make_table_from_iter valid addr rest).map
            (fun tail => (addr, ⟨m⟩, ⟨f⟩, fn) :: tail)
        else none
      else none := by
  by_cases h1 : valid m <;> by_cases h2 : valid f <;>
    cases hr : make_table_from_iter valid addr rest <;>
      simp [make_table_from_iter, Identifier.new, h1, h2, hr]

/-! ## Claim theorems -/

/-- C1: for every registration table whose (address, module name, function
name) triples are pairwise distinct, registry construction
(`NativeFunctions::new`) succeeds, and on the resulting registry `resolve`
returns exactly the implementation registered under each registered triple,
and nothing for every triple not in the table. -/
theorem registry_build_resolve_exact {ν : Type} (table : NativeFunctionTable ν)
    (hnd : (table.map tripleOf).Nodup) :
    ∃ r, NativeFunctions.new table = Except.ok r ∧
      (∀ (a : AccountAddress) (mi fi : Identifier) (fn : ν),
        (a, mi, fi, fn) ∈ table →
          r.resolve a mi.into_string fi.into_string = some fn) ∧
      (∀ k : AccountAddress × String × String,
        (∀ e ∈ table, tripleOf e ≠ k) → r.resolve k.1 k.2.1 k.2.2 = none) := by
  obtain ⟨r, hr⟩ := newGo_ok_of_nodup table [] hnd (fun e _ => rfl)
  have hres : ∀ k, resolveMap r.map k = tableLookup table k := by
    intro k
    have h := newGo_ok_resolveMap table [] r hr k
    simpa [resolveMap, HMap.get?] using h
  refine ⟨r, hr, ?_, ?_⟩
  · intro a mi fi fn hmem
    rw [resolve_eq_resolveMap, hres]
    exact tableLookup_mem table hnd _ hmem
  · intro k hk
    rw [resolve_eq_resolveMap, hres]
    exact tableLookup_not_mem table k hk

theorem registry_build_resolve_exact_witness :
    ∃ r, NativeFunctions.new tblDistinct = Except.ok r ∧
      r.resolve 1 "m" "f" = some 10 ∧ r.resolve 1 "m" "g" = some 11 ∧
      r.resolve 2 "m" "f" = some 12 ∧ r.resolve 1 "m" "x" = none := by
  obtain ⟨r, hr, hmem, hmiss⟩ :=
    registry_build_resolve_exact tblDistinct (by decide)
  refine ⟨r, hr, ?_, ?_, ?_, ?_⟩
  · exact hmem 1 ⟨"m"⟩ ⟨"f"⟩ 10 (by decide)
  · exact hmem 1 ⟨"m"⟩ ⟨"g"⟩ 11 (by decide)
  · exact hmem 2 ⟨"m"⟩ ⟨"f"⟩ 12 (by decide)
  · exact hmiss (1, "m", "x") (by decide)

/-- C2: a registration table containing two entries with an identical
(address, module, function) triple makes `NativeFunctions::new` fail with the
duplicate-registration condition, and the failure is atomic: no registry
value is produced, however many entries preceded the conflict. -/
theorem registry_duplicate_fails_atomically {ν : Type}
    (table : NativeFunctionTable ν) (i j : Nat)
    (hi : i < table.length) (hj : j < table.length) (hij : i ≠ j)
    (heq : tripleOf table[i] = tripleOf table[j]) :
    NativeFunctions.new table =
      Except.error (PVMError.new StatusCode.DUPLICATE_NATIVE_FUNCTION) ∧
    ∀ r, NativeFunctions.new table ≠ Except.ok r := by
  have hnotnd : ¬ (table.map tripleOf).Nodup := by
    intro hnd
    have hi' : i < (table.map tripleOf).length := by simpa using hi
    have hj' : j < (table.map tripleOf).length := by simpa using hj
    have hmapeq : (table.map tripleOf)[i] = (table.map tripleOf)[j] := by
      simpa [List.getElem_map] using heq
    exact hij (hnd.getElem_inj_iff.mp hmapeq)
  cases h : NativeFunctions.new table with
  | ok r => exact absurd (newGo_ok_nodup table [] r h).1 hnotnd
  | error e =>
    have he := newGo_error_eq table [] e h
    subst he
    refine ⟨rfl, ?_⟩
    intro r hr
    simp at hr

theorem registry_duplicate_fails_atomically_witness :
    NativeFunctions.new tblDupDiff =
      Except.error (PVMError.new StatusCode.DUPLICATE_NATIVE_FUNCTION) ∧
    ∀ r, NativeFunctions.new tblDupDiff ≠ Except.ok r :=
  registry_duplicate_fails_atomically tblDupDiff 0 1
    (by decide) (by decide) (by decide) (by decide)

/-- C10: duplicate detection keys on the (address, module, function) triple
alone: a table in which one triple appears at two positions fails
construction regardless of the implementations carried (in particular when
they are identical), while a table of pairwise-distinct triples — however its
entries overlap in single components or implementations — always builds. -/
theorem registry_duplicate_keys_on_triple {ν : Type}
    (table : NativeFunctionTable ν) :
    (∀ i j : Nat, ∀ hi : i < table.length, ∀ hj : j < table.length,
      i ≠ j → tripleOf table[i] = tripleOf table[j] →
        NativeFunctions.new table =
          Except.error (PVMError.new StatusCode.DUPLICATE_NATIVE_FUNCTION)) ∧
    ((table.map tripleOf).Nodup →
      ∃ r, NativeFunctions.new table = Except.ok r) := by
  constructor
  · intro i j hi hj hij heq
    have hnotnd : ¬ (table.map tripleOf).Nodup := by
      intro hnd
      have hi' : i < (table.map tripleOf).length := by simpa using hi
      have hj' : j < (table.map tripleOf).length := by simpa using hj
      have hmapeq : (table.map tripleOf)[i] = (table.map tripleOf)[j] := by
        simpa [List.getElem_map] using heq
      exact hij (hnd.getElem_inj_iff.mp hmapeq)
    cases h : NativeFunctions.new table with
    | ok r => exact absurd (newGo_ok_nodup table [] r h).1 hnotnd
    | error e => rw [newGo_error_eq table [] e h]
  · intro hnd
    exact newGo_ok_of_nodup table [] hnd (fun e _ => rfl)

theorem registry_duplicate_keys_on_triple_witness :
    NativeFunctions.new tblDupSame =
      Except.error (PVMError.new StatusCode.DUPLICATE_NATIVE_FUNCTION) ∧
    ∃ r, NativeFunctions.new tblNearMiss = Except.ok r :=
  ⟨(registry_duplicate_keys_on_triple tblDupSame).1 0 1
      (by decide) (by decide) (by decide) (by decide),
   (registry_duplicate_keys_on_triple tblNearMiss).2 (by decide)⟩

/-- C6: `make_table` and `make_table_from_iter` agree, and construction
succeeds exactly when every module-name text and function-name text in the
input is a legal identifier — one illegal name makes the whole construction
fail at once (the modelled panic, `none`), under which no partially-usable
table exists. -/
theorem builder_invalid_identifier_fails {ν : Type} (valid : String → Bool)
    (addr : AccountAddress) (elems : List (String × String × ν)) :
    make_table valid addr elems = make_table_from_iter valid addr elems ∧
    ((make_table_from_iter valid addr elems).isSome ↔
      ∀ e ∈ elems, valid e.1 = true ∧ valid e.2.1 = true) := by
  refine ⟨rfl, ?_⟩
  induction elems with
  | nil => simp [make_table_from_iter]
  | cons e rest ih =>
    obtain ⟨m, f, fn⟩ := e
    rw [make_table_from_iter_cons]
    by_cases h1 : valid m
    · by_cases h2 : valid f
      · rw [if_pos h1, if_pos h2]
        simp only [Option.isSome_map']
        rw [ih]
        constructor
        · intro hall e' he'
          rcases List.mem_cons.mp he' with h | h
          · subst h
            exact ⟨h1, h2⟩
          · exact hall e' h
        · intro hall e' he'
          exact hall e' (List.mem_cons_of_mem _ he')
      · rw [if_pos h1, if_neg h2]
        exact iff_of_false (by simp)
          fun hall => h2 (hall _ (List.mem_cons_self _ _)).2
    · rw [if_neg h1]
      exact iff_of_false (by simp)
        fun hall => h1 (hall _ (List.mem_cons_self _ _)).1

/-- C9: on input whose names are all legal identifiers,
`make_table_from_iter` produces exactly one registration entry per input
triple, in input order, each carrying the single address given to the call
together with its triple's module name, function name and implementation. -/
theorem builder_output_entries {ν : Type} (valid : String → Bool)
    (addr : AccountAddress) (elems : List (String × String × ν))
    (h : ∀ e ∈ elems, valid e.1 = true ∧ valid e.2.1 = true) :
    make_table_from_iter valid addr elems =
      some (elems.map fun e => (addr, ⟨e.1⟩, ⟨e.2.1⟩, e.2.2)) := by
  induction elems with
  | nil => rfl
  | cons e rest ih =>
    obtain ⟨m, f, fn⟩ := e
    obtain ⟨h1, h2⟩ := h _ (List.mem_cons_self _ _)
    have ih' := ih fun e' he' => h e' (List.mem_cons_of_mem _ he')
    simp [make_table_from_iter, Identifier.new, h1, h2, ih']

theorem builder_output_entries_witness :
    make_table_from_iter validSample 7 [("m", "f", (5 : Nat)), ("n", "g", 6)] =
      some [(7, ⟨"m"⟩, ⟨"f"⟩, 5), (7, ⟨"n"⟩, ⟨"g"⟩, 6)] :=
  builder_output_entries validSample 7 [("m", "f", 5), ("n", "g", 6)]
    (by decide)

/-- Replaying calls the store's policy accepts returns `true` for each call
and appends the guids in call order, for any store state sharing that
policy. -/
theorem save_event_seq_all_ok
    (d : Guid → Nat → Ty → Value → Except PVMError MoveTypeLayout)
    (calls : List (Guid × Nat × Ty × Value)) :
    ∀ (log : List Event) (res : Resolver),
      (∀ c ∈ calls, ∃ layout, d c.1 c.2.1 c.2.2.1 c.2.2.2 = Except.ok layout) →
      (save_event_seq ⟨⟨d, log⟩, res⟩ calls).1 =
        calls.map (fun _ => Except.ok true) ∧
      ((save_event_seq ⟨⟨d, log⟩, res⟩ calls).2.events).map (fun ev => ev.1) =
        log.map (fun ev => ev.1) ++ calls.map (fun c => c.1) := by
  induction calls with
  | nil =>
    intro log res hacc
    exact ⟨rfl, by simp [save_event_seq, NativeContext.events, DataStore.events]⟩
  | cons c rest ih =>
    intro log res hacc
    obtain ⟨g, s, t, v⟩ := c
    obtain ⟨layout, hd⟩ := hacc _ (List.mem_cons_self _ _)
    have hstep : NativeContext.save_event ⟨⟨d, log⟩, res⟩ g s t v =
        (Except.ok true, ⟨⟨d, log ++ [(g, s, t, layout, v)]⟩, res⟩) := by
      exact save_event_accept hd
    obtain ⟨ih1, ih2⟩ := ih (log ++ [(g, s, t, layout, v)]) res
      (fun c' hc' => hacc c' (List.mem_cons_of_mem _ hc'))
    refine ⟨?_, ?_⟩
    · show (save_event_seq ⟨⟨d, log⟩, res⟩ ((g, s, t, v) :: rest)).1 = _
      simp only [save_event_seq, hstep, List.map_cons]
      rw [ih1]
    · show ((save_event_seq ⟨⟨d, log⟩, res⟩ ((g, s, t, v) :: rest)).2.events).map
        (fun ev => ev.1) = _
      simp only [save_event_seq, hstep]
      rw [ih2]
      simp

/-- C5: for every sequence of `save_event` calls the data store accepts, every
call returns success-`true` and `events()` afterwards lists the recorded
events — by identifier — in exactly the order of the calls, appended to the
previously recorded events and independent of the events' payloads. -/
theorem events_in_call_order (ctx : NativeContext)
    (calls : List (Guid × Nat × Ty × Value))
    (hacc : ∀ c ∈ calls, ∃ layout,
      ctx.data_store.emit_decision c.1 c.2.1 c.2.2.1 c.2.2.2 =
        Except.ok layout) :
    (save_event_seq ctx calls).1 = calls.map (fun _ => Except.ok true) ∧
    ((save_event_seq ctx calls).2.events).map (fun ev => ev.1) =
      (ctx.events).map (fun ev => ev.1) ++ calls.map (fun c => c.1) := by
  obtain ⟨⟨d, log⟩, res⟩ := ctx
  exact save_event_seq_all_ok d calls log res hacc

theorem events_in_call_order_witness :
    (save_event_seq ctxAccept callsThree).1 =
      [Except.ok true, Except.ok true, Except.ok true] ∧
    ((save_event_seq ctxAccept callsThree).2.events).map (fun ev => ev.1) =
      [[1], [2], [3]] :=
  events_in_call_order ctxAccept callsThree (fun _ _ => ⟨0, rfl⟩)

/-- C3: `save_event` returns success-`true` when the data store accepts,
propagates a store error classified as an internal invariant violation
unmodified, and returns success-`false` for a store rejection of any other
classification. -/
theorem save_event_classifies (ctx : NativeContext) (guid : Guid)
    (seq_num : Nat) (ty : Ty) (val : Value) :
    (∀ layout,
      ctx.data_store.emit_decision guid seq_num ty val = Except.ok layout →
        (ctx.save_event guid seq_num ty val).1 = Except.ok true) ∧
    (∀ e, ctx.data_store.emit_decision guid seq_num ty val = Except.error e →
      e.major_status.status_type = StatusType.InvariantViolation →
        (ctx.save_event guid seq_num ty val).1 = Except.error e) ∧
    (∀ e, ctx.data_store.emit_decision guid seq_num ty val = Except.error e →
      e.major_status.status_type ≠ StatusType.InvariantViolation →
        (ctx.save_event guid seq_num ty val).1 = Except.ok false) := by
  refine ⟨?_, ?_, ?_⟩
  · intro layout h
    rw [save_event_accept h]
  · intro e h hinv
    rw [save_event_reject h, if_pos hinv]
  · intro e h hinv
    rw [save_event_reject h, if_neg hinv]

theorem save_event_classifies_witness :
    (ctxMixed.save_event [1] 0 0 0).1 = Except.ok true ∧
    (ctxMixed.save_event [2] 0 0 0).1 = Except.error errInvariant ∧
    (ctxMixed.save_event [3] 0 0 0).1 = Except.ok false :=
  ⟨(save_event_classifies ctxMixed [1] 0 0 0).1 0 rfl,
   (save_event_classifies ctxMixed [2] 0 0 0).2.1 errInvariant rfl rfl,
   (save_event_classifies ctxMixed [3] 0 0 0).2.2 errExecution rfl
     (by decide)⟩

/-- C8: a `save_event` call the store rejects — under either error
classification — leaves the log observed through `events()` unchanged, while
an accepted call returns `true` and appends the event as the last element
(in particular, if the event was not yet in the log it now occurs exactly
once). -/
theorem save_event_log_effect (ctx : NativeContext) (guid : Guid)
    (seq_num : Nat) (ty : Ty) (val : Value) :
    (∀ layout,
      ctx.data_store.emit_decision guid seq_num ty val = Except.ok layout →
        (ctx.save_event guid seq_num ty val).1 = Except.ok true ∧
        (ctx.save_event guid seq_num ty val).2.events =
          ctx.events ++ [(guid, seq_num, ty, layout, val)] ∧
        ((guid, seq_num, ty, layout, val) ∉ ctx.events →
          ((ctx.save_event guid seq_num ty val).2.events).count
            (guid, seq_num, ty, layout, val) = 1)) ∧
    (∀ e, ctx.data_store.emit_decision guid seq_num ty val = Except.error e →
      (ctx.save_event guid seq_num ty val).2.events = ctx.events) := by
  constructor
  · intro layout h
    rw [save_event_accept h]
    refine ⟨rfl, rfl, ?_⟩
    intro hnot
    have hnot' : (guid, seq_num, ty, layout, val) ∉ ctx.data_store.event_log :=
      hnot
    show (ctx.data_store.event_log ++ [(guid, seq_num, ty, layout, val)]).count
      (guid, seq_num, ty, layout, val) = 1
    rw [List.count_append, List.count_eq_zero.mpr hnot']
    simp
  · intro e h
    rw [save_event_reject h]
    by_cases hinv : e.major_status.status_type = StatusType.InvariantViolation
    · rw [if_pos hinv]
    · rw [if_neg hinv]

theorem save_event_log_effect_witness :
    ((ctxMixed.save_event [1] 0 0 0).1 = Except.ok true ∧
      (ctxMixed.save_event [1] 0 0 0).2.events = [([1], 0, 0, 0, 0)] ∧
      (([1], 0, 0, 0, (0 : Value)) ∉ ctxMixed.events →
        ((ctxMixed.save_event [1] 0 0 0).2.events).count ([1], 0, 0, 0, 0) = 1)) ∧
    (ctxMixed.save_event [2] 0 0 0).2.events = ctxMixed.events ∧
    (ctxMixed.save_event [3] 0 0 0).2.events = ctxMixed.events :=
  ⟨(save_event_log_effect ctxMixed [1] 0 0 0).1 0 rfl,
   (save_event_log_effect ctxMixed [2] 0 0 0).2 errInvariant rfl,
   (save_event_log_effect ctxMixed [3] 0 0 0).2 errExecution rfl⟩

/-- C7: `type_to_type_tag` returns the resolver's tag on success, and every
resolver failure — of any classification — propagates to the caller as an
error, never downgraded to an ordinary value. -/
theorem type_to_type_tag_propagates (ctx : NativeContext) (ty : Ty) :
    (∀ tag, ctx.resolver.loader.type_to_type_tag ty = Except.ok tag →
        ctx.type_to_type_tag ty = Except.ok tag) ∧
    (∀ e, ctx.resolver.loader.type_to_type_tag ty = Except.error e →
        ctx.type_to_type_tag ty = Except.error e) := by
  constructor
  · intro tag h
    rw [NativeContext.type_to_type_tag, h]
  · intro e h
    rw [NativeContext.type_to_type_tag, h]

theorem type_to_type_tag_propagates_witness :
    ctxMixed.type_to_type_tag 0 = Except.ok 0 ∧
    ctxMixed.type_to_type_tag 1 = Except.error errInvariant :=
  ⟨(type_to_type_tag_propagates ctxMixed 0).1 0 rfl,
   (type_to_type_tag_propagates ctxMixed 1).2 errInvariant rfl⟩

/-- C4: `type_to_type_layout` wraps the resolver's layout as present on
success, propagates a resolver failure classified as an internal invariant
violation, and degrades any other resolver failure to "no layout". -/
theorem type_to_type_layout_classifies (ctx : NativeContext) (ty : Ty) :
    (∀ layout, ctx.resolver.type_to_type_layout ty = Except.ok layout →
        ctx.type_to_type_layout ty = Except.ok (some layout)) ∧
    (∀ e, ctx.resolver.type_to_type_layout ty = Except.error e →
      e.major_status.status_type = StatusType.InvariantViolation →
        ctx.type_to_type_layout ty = Except.error e) ∧
    (∀ e, ctx.resolver.type_to_type_layout ty = Except.error e →
      e.major_status.status_type ≠ StatusType.InvariantViolation →
        ctx.type_to_type_layout ty = Except.ok none) := by
  refine ⟨?_, ?_, ?_⟩
  · intro layout h
    rw [NativeContext.type_to_type_layout, h]
  · intro e h hinv
    simp [NativeContext.type_to_type_layout, h, hinv]
  · intro e h hinv
    simp [NativeContext.type_to_type_layout, h, hinv]

theorem type_to_type_layout_classifies_witness :
    ctxMixed.type_to_type_layout 0 = Except.ok (some 7) ∧
    ctxMixed.type_to_type_layout 1 = Except.error errInvariant ∧
    ctxMixed.type_to_type_layout 2 = Except.ok none :=
  ⟨(type_to_type_layout_classifies ctxMixed 0).1 7 rfl,
   (type_to_type_layout_classifies ctxMixed 1).2.1 errInvariant rfl rfl,
   (type_to_type_layout_classifies ctxMixed 2).2.2 errExecution rfl
     (by decide)⟩

end Move
